import Mathlib

/-!
# A shallow embedding of `src/scripts/generate.js`

The generator turns one record of the natives database into the text of a typed
wrapper function.  Every function of the script that takes part in that
translation is embedded below as a Lean function of the same name.

Modelling conventions.

* A JavaScript string is a Lean `String`, one `Char` per code unit.  The string
  methods the script calls (`split`, `replace`, `padStart`, `startsWith`, ...)
  are defined on the underlying character lists.
* `BigInt` values are natural numbers; `>>` and `&` are `>>>` and `&&&` on `Nat`.
* A `for ... of` loop that pushes onto an array is a left fold that appends one
  element at the end of the accumulator.
* A property read on an object literal follows the prototype chain, so the
  value of a `type` field is either a string or a member of `Object.prototype`.
* An expression that throws in JavaScript yields `none`.
-/

namespace Generate

/-! ## String primitives of the runtime -/

/-- Worker of `split`: `skip` counts the characters of a matched separator that
are still to be consumed, `cur` is the segment under construction. -/
def splitGo (sep : List Char) : List Char → Nat → List Char → List (List Char)
  | [], _, cur => [cur]
  | _ :: rest, skip + 1, cur => splitGo sep rest skip cur
  | c :: rest, 0, cur =>
    if sep.isPrefixOf (c :: rest) then cur :: splitGo sep rest (sep.length - 1) []
    else splitGo sep rest 0 (cur ++ [c])

/-- The method `String.prototype.split(separator)` with a string separator: the
segments between the successive, leftmost, non-overlapping occurrences of the
separator.  With an empty separator the string is cut into its code units. -/
def split (s separator : String) : List String :=
  if separator.data = [] then s.data.map (fun c => String.mk [c])
  else (splitGo separator.data s.data 0 []).map String.mk

/-- Worker of `replace`: rewrites the first occurrence of `pat`. -/
def replaceGo (pat rep : List Char) : List Char → List Char
  | [] => if pat = [] then rep else []
  | c :: rest =>
    if pat.isPrefixOf (c :: rest) then rep ++ (c :: rest).drop pat.length
    else c :: replaceGo pat rep rest

/-- The method `String.prototype.replace(pattern, replacement)` with a string
pattern: only the first occurrence of the pattern is replaced.  (The
replacements used by the script contain no `$`.) -/
def replace (s pattern replacement : String) : String :=
  String.mk (replaceGo pattern.data replacement.data s.data)

/-- Worker of `replaceAll`: rewrites every occurrence of `pat`, scanning left to
right; `skip` counts the characters of a match still to be consumed. -/
def replaceAllGo (pat rep : List Char) : List Char → Nat → List Char
  | [], _ => []
  | _ :: rest, skip + 1 => replaceAllGo pat rep rest skip
  | c :: rest, 0 =>
    if pat.isPrefixOf (c :: rest) then rep ++ replaceAllGo pat rep rest (pat.length - 1)
    else c :: replaceAllGo pat rep rest 0

/-- The method `String.prototype.replace(/pattern/g, replacement)` for a regular
expression that matches one fixed, non-empty text: every leftmost
non-overlapping occurrence is replaced. -/
def replaceAll (s pattern replacement : String) : String :=
  String.mk (replaceAllGo pattern.data replacement.data s.data 0)

/-- The method `String.prototype.padStart(targetLength, padString)`. -/
def padStart (s : String) (targetLength : Nat) (padString : String) : String :=
  if targetLength ≤ s.data.length ∨ padString.data = [] then s
  else
    let fillLen := targetLength - s.data.length
    String.mk ((List.replicate fillLen padString.data).flatten.take fillLen ++ s.data)

/-- The method `String.prototype.startsWith(searchString)`. -/
def startsWith (s searchString : String) : Bool :=
  searchString.data.isPrefixOf s.data

/-- The method `String.prototype.substring(start)` for a non-negative `start`. -/
def substring (s : String) (start : Nat) : String :=
  String.mk (s.data.drop start)

/-- The method `String.prototype.slice(start)` for a non-negative `start`. -/
def slice (s : String) (start : Nat) : String :=
  String.mk (s.data.drop start)

/-- The method `String.prototype.charAt(index)`: the one-character string at
`index`, or the empty string when `index` is out of range. -/
def charAt (s : String) (index : Nat) : String :=
  String.mk ((s.data.drop index).take 1)

/-- The method `Array.prototype.join(separator)` on an array of strings. -/
def join (parts : List String) (separator : String) : String :=
  String.mk (List.intercalate separator.data (parts.map String.data))

/-- The method `BigInt.prototype.toString(16)` on a non-negative value:
lower-case hexadecimal digits without leading zeros, `0` for zero. -/
def toString16 (n : Nat) : String :=
  String.mk (Nat.toDigits 16 n)

/-- Case mapping on the ASCII letters, the instance of `toLowerCase` used for
concrete names. -/
def asciiLower (s : String) : String :=
  String.mk (s.data.map Char.toLower)

/-- Case mapping on the ASCII letters, the instance of `toUpperCase` used for
concrete names. -/
def asciiUpper (s : String) : String :=
  String.mk (s.data.map Char.toUpper)

/-- The JavaScript white space and line terminator code points removed by
`String.prototype.trim`. -/
def isWhiteSpace (c : Char) : Bool :=
  c.val.toNat ∈ [0x09, 0x0A, 0x0B, 0x0C, 0x0D, 0x20, 0xA0, 0x1680, 0x2000, 0x2001,
    0x2002, 0x2003, 0x2004, 0x2005, 0x2006, 0x2007, 0x2008, 0x2009, 0x200A, 0x2028,
    0x2029, 0x202F, 0x205F, 0x3000, 0xFEFF]

/-- The method `String.prototype.trim()`. -/
def trim (s : String) : String :=
  String.mk ((s.data.dropWhile isWhiteSpace).reverse.dropWhile isWhiteSpace).reverse

/-! ## Lines 3-11: the hash splitter -/

/-- The object returned by `splitHash`. -/
structure HashWords where
  one : String
  two : String
  deriving DecidableEq

/-- Lines 3-11; `hash` is the number that `BigInt(hash)` denotes. -/
def splitHash (hash : Nat) : HashWords :=
  let bigHash := hash
  let hashOne := (bigHash >>> 32) &&& 0xffffffff
  let hashTwo := bigHash &&& 0xffffffff
  { one := "0x" ++ padStart (toString16 hashOne) 8 "0",
    two := "0x" ++ padStart (toString16 hashTwo) 8 "0" }

/-- Lines 13-15. -/
def trimAndNormalize (str : String) : String :=
  replaceAll (replaceAll (trim str) "/*" " -- [[") "*/" "]] "

/-- Lines 17-26. -/
def getNativeReturnType (type : String) : String :=
  if type = "string" then "_s"
  else if type = "char" then "_s"
  else if type = "float" then "_rf"
  else if type = "Vector3" then "_rv"
  else if type = "long" then "_rl"
  else if type = "int" then "_ri"
  else if type = "object" then "_ro"
  else "_ri"

/-! ## Lines 28-69: the type mapper -/

/-- A value found in the `type` field of a parameter object: a string, or a
member that the table lookup of `getParamType` inherited from
`Object.prototype` (a function, or the prototype object itself for
`__proto__`). -/
inductive TypeValue where
  | str (s : String)
  | inherited (key : String)
  deriving DecidableEq

/-- Lines 28-47: the own properties of the object literal. -/
def nativeParamTypes : List (String × String) :=
  [("int", "int"), ("Any", "int"), ("float", "float"), ("boolean", "boolean"),
   ("Vehicle", "int"), ("Cam", "int"), ("Vector3", "Vector3"), ("FireId", "int"),
   ("Pickup", "int"), ("string", "string"), ("Hash", "hash"), ("Ped", "int"),
   ("Entity", "int"), ("Object", "int"), ("Player", "int"), ("ScrHandle", "int"),
   ("Blip", "int"), ("Interior", "int")]

/-- The property names of `Object.prototype`, the prototype of every object
literal. -/
def objectPrototypeKeys : List String :=
  ["constructor", "__defineGetter__", "__defineSetter__", "hasOwnProperty",
   "__lookupGetter__", "__lookupSetter__", "isPrototypeOf", "propertyIsEnumerable",
   "toString", "valueOf", "__proto__", "toLocaleString"]

/-- The property read `nativeParamTypes[key]`; `none` is `undefined`.  A string
key finds the own property if there is one and otherwise the member of
`Object.prototype` of that name.  A key that is not a string is first converted
to one (the source text of a function, `[object Object]`), which names no
property. -/
def nativeParamTypesGet : TypeValue → Option TypeValue
  | .str key =>
    match nativeParamTypes.lookup key with
    | some v => some (.str v)
    | none => if key ∈ objectPrototypeKeys then some (.inherited key) else none
  | .inherited _ => none

/-- Truthiness of a value: only the empty string is falsy. -/
def TypeValue.truthy : TypeValue → Bool
  | .str s => s ≠ ""
  | .inherited _ => true

/-- The comparison `value == "literal"` against one of the type names written
in the script: a string compares by content, a function or object is first
converted to a string that is none of those names. -/
def TypeValue.looseEq : TypeValue → String → Bool
  | .str s, lit => s = lit
  | .inherited _, _ => false

/-- Lines 49-51; the argument is the `type` field of `param`, the only field
the function reads. -/
def getParamType (type : TypeValue) : TypeValue :=
  match nativeParamTypesGet type with
  | some v => if v.truthy then v else type
  | none => type

/-- Lines 53-63; the argument is the `type` field of `argument`. -/
def getTypescriptType (argumentType : TypeValue) : String :=
  let type := getParamType argumentType
  let tsType := "any"
  if type.looseEq "string" then "string"
  else if type.looseEq "boolean" then "boolean"
  else if type.looseEq "int" then "number"
  else if type.looseEq "float" then "number"
  else if type.looseEq "Vector3" then "Vector3"
  else if type.looseEq "hash" then "number"
  else tsType

/-- Lines 65-69. -/
def getTypescriptReturnType (type : String) : String :=
  let type := replace (replace type "[" "") "]" ""
  if type = "void" then "void"
  else getTypescriptType (.str type)

/-- Lines 71-76; `param.type` is the mapped type stored in the descriptor. -/
def getReturnWarpper (paramName : String) (paramType : TypeValue) : String :=
  let nativeType := getTypescriptType paramType
  let warpper := ""
  let warpper := if nativeType = "Vector3" then "_mv" else warpper
  if warpper ≠ "" then warpper ++ "(" ++ paramName ++ ")"
  else paramName ++ " as " ++ nativeType

/-! ## Lines 78-231: the descriptor -/

/-- One entry of `data.params` in a record of the database. -/
structure RawParam where
  name : String
  type : String
  ref : Bool
  deriving DecidableEq

/-- One record of the database, as handed to the constructor. -/
structure RawNative where
  hash : Nat
  name : String
  comment : String
  params : List RawParam
  results : String
  deriving DecidableEq

/-- One entry of `this.params`. -/
structure Param where
  name : String
  type : TypeValue
  ref : Bool
  deriving DecidableEq

/-- The fields of the class (lines 79-85). -/
structure Native where
  hash : Nat
  name : String
  jhash : String
  comment : String
  params : List Param
  results : List String
  rawNativeInfo : RawNative
  deriving DecidableEq

/-- Lines 87-118. -/
def Native.constructor (data : RawNative) : Native :=
  let params : List Param := data.params.foldl
    (fun params param =>
      params ++ [{ name := param.name, type := getParamType (.str param.type), ref := param.ref }])
    []
  let results : List String := []
  let splitedResults := split data.results ", "
  let results :=
    if splitedResults.length ≤ 0 then results ++ [getTypescriptReturnType data.results]
    else splitedResults.foldl (fun results result => results ++ [getTypescriptReturnType result])
      results
  { hash := data.hash, name := data.name, jhash := "Placeholder", comment := data.comment,
    params := params, results := results, rawNativeInfo := data }

/-- Lines 120-126. -/
def Native.getReferenceParams (self : Native) : List Param :=
  self.params.foldl (fun params param => if param.ref then params ++ [param] else params) []

/-- Lines 128-130. -/
def Native.isSinglePointer (self : Native) : Bool :=
  self.getReferenceParams.length == 1

/-- Lines 132-142.  The two case mappings of the runtime are parameters.
`parts.shift()` is `undefined` on an empty array, and calling a method on it
throws. -/
def Native.getNativeName (toLowerCase toUpperCase : String → String) (self : Native) :
    Option String :=
  let name := self.name
  let isUnderscore := startsWith name "_"
  let name := if isUnderscore then substring name 1 else name
  let parts := split name "_"
  match parts with
  | [] => none
  | shifted :: parts =>
    let firstPart := toLowerCase shifted
    let rest := join (parts.map (fun p => toUpperCase (charAt p 0) ++ toLowerCase (slice p 1))) ""
    some (firstPart ++ rest)

/-- Lines 148-163: the body of the loop of `getInvokeArgs`, the argument
emitted for one parameter. -/
def Native.invokeArg (self : Native) (param : Param) : String :=
  let acc := ""
  if param.ref then
    let singlePointer := self.isSinglePointer
    let acc := if param.type.looseEq "int" then
      (if singlePointer then "_ii(" ++ param.name ++ ")" else "_i") else acc
    let acc := if param.type.looseEq "float" then
      (if singlePointer then "_fi(" ++ param.name ++ ")" else "_f") else acc
    let acc := if param.type.looseEq "Vector3" then "_v" else acc
    if acc ≠ "" then acc else "_i"
  else
    let acc := if param.type.looseEq "func" then "_mfr(" ++ param.name ++ ")" else acc
    let acc := if param.type.looseEq "float" then "_fv(" ++ param.name ++ ")" else acc
    let acc := if param.type.looseEq "hash" then "_ch(" ++ param.name ++ ")" else acc
    let acc := if param.type.looseEq "object" then "...(_obj(" ++ param.name ++ ")" else acc
    let acc := if param.type.looseEq "string" then "_ts(" ++ param.name ++ ")" else acc
    let acc := if param.type.looseEq "char" then "_ts(" ++ param.name ++ ")" else acc
    if acc ≠ "" then acc else param.name

/-- Lines 144-176. -/
def Native.getInvokeArgs (self : Native) : List String :=
  let hashs := splitHash self.hash
  let args := [hashs.one, hashs.two]
  let args := self.params.foldl (fun args param => args ++ [self.invokeArg param]) args
  match self.results with
  | [] => args
  | primary :: _ =>
    if primary ≠ "void" then
      let args := args ++ ["_r"]
      if primary ≠ "boolean" then args ++ [getNativeReturnType primary] else args
    else args

/-- Lines 178-195. -/
def Native.genDoc (self : Native) : String :=
  let desc := self.comment
  if desc.data.length ≤ 0 then ""
  else
    let doc := "/**\n"
    let lines := split desc "\n"
    let doc := lines.foldl (fun doc line => doc ++ (" * " ++ trimAndNormalize line ++ "\n")) doc
    let doc := self.params.foldl (fun doc param => doc ++ (" * @param " ++ param.name ++ "\n")) doc
    doc ++ " */\n"

/-- Lines 197-204. -/
def Native.genParams (self : Native) : String :=
  let params := self.params.foldl
    (fun params param =>
      if param.ref && !self.isSinglePointer then params
      else params ++ [param.name ++ ": " ++ getTypescriptType param.type])
    []
  join params ", "

/-- Lines 206-211; `none` is `undefined`, the value of `results[0]` on an empty
array. -/
def Native.genReturnTypes (self : Native) : Option String :=
  let results := self.results
  if results.length ≤ 1 then results.head?
  else
    let results := results.drop 1
    some ("[" ++ join results ", " ++ "]")

/-- Lines 217-225. -/
def Native.genBody (self : Native) : String :=
  let invokeParams := join self.getInvokeArgs ", "
  if self.getReferenceParams.length > 1 then
    let invokePart := "const [" ++ join (self.getReferenceParams.map (fun p => p.name)) ", "
      ++ "] = _in(" ++ invokeParams ++ ");"
    let returnPart := "return ["
      ++ join (self.getReferenceParams.map (fun p => getReturnWarpper p.name p.type)) ", " ++ "]"
    invokePart ++ "\n\t" ++ returnPart
  else "return _in(" ++ invokeParams ++ ")"

/-! ## Reading a generated literal back -/

/-- The value of one hexadecimal digit, `none` for any other character. -/
def hexDigitValue (c : Char) : Option Nat :=
  if '0' ≤ c ∧ c ≤ '9' then some (c.toNat - '0'.toNat)
  else if 'a' ≤ c ∧ c ≤ 'f' then some (c.toNat - 'a'.toNat + 10)
  else if 'A' ≤ c ∧ c ≤ 'F' then some (c.toNat - 'A'.toNat + 10)
  else none

/-- Whether a character is a hexadecimal digit. -/
def isHexDigit (c : Char) : Bool :=
  (hexDigitValue c).isSome

/-- The number written by a list of hexadecimal digits, most significant first;
`none` when a character is not a digit. -/
def hexValue (digits : List Char) : Option Nat :=
  digits.foldl (fun acc c => acc.bind (fun a => (hexDigitValue c).map (fun d => 16 * a + d)))
    (some 0)

/-- The number denoted by a literal `0x` followed by at least one hexadecimal
digit; `none` for any other text. -/
def parseHex (s : String) : Option Nat :=
  match s.data with
  | '0' :: 'x' :: d :: digits => hexValue (d :: digits)
  | _ => none

/-! ## The specification's wording, for comparison with the code -/

/-- The name normalizer in the words of the specification (section 4.3): drop
one leading underscore, cut the remainder at every underscore, lower-case the
first segment, and append every later segment with its first character
upper-cased and its other characters lower-cased. -/
def normalizeName (toLowerCase toUpperCase : String → String) (rawName : String) : String :=
  let remainder :=
    match rawName.data with
    | '_' :: afterUnderscore => afterUnderscore
    | other => other
  match remainder.splitOn '_' with
  | [] => ""
  | first :: later =>
    later.foldl
      (fun out segment =>
        out ++ toUpperCase (String.mk (segment.take 1)) ++ toLowerCase (String.mk (segment.drop 1)))
      (toLowerCase (String.mk first))

/-- The return-type mapper in the words of the specification (section 4.1):
every bracket character is removed, then `void` stays `void` and anything else
goes through the surface-type mapping. -/
def mapReturnSurfaceType (spec : String) : String :=
  let stripped := String.mk (spec.data.filter (fun c => c ≠ '[' ∧ c ≠ ']'))
  if stripped = "void" then "void"
  else getTypescriptType (.str stripped)

/-! ## Lines 206-211 with the arrays made explicit -/

/-- The two arrays that `genReturnTypes` works on: the array held by the
descriptor and the copy that the spread on line 207 creates. -/
structure ReturnTypesArrays where
  own : List String
  copy : List String
  deriving DecidableEq

/-- Lines 206-211, returning the value of the call together with the two arrays
as they are when the call ends: the spread copies `this.results` into a new
array, and `shift()` removes the first element of that copy. -/
def Native.genReturnTypesRun (self : Native) : Option String × ReturnTypesArrays :=
  let arrays : ReturnTypesArrays := { own := self.results, copy := self.results }
  if arrays.copy.length ≤ 1 then (arrays.copy.head?, arrays)
  else
    let arrays : ReturnTypesArrays := { arrays with copy := arrays.copy.drop 1 }
    (some ("[" ++ join arrays.copy ", " ++ "]"), arrays)

/-! ## Well-formedness of generated text -/

/-- Scans a text with the number of parentheses currently open; `none` when a
closing parenthesis has no opening one before it. -/
def parenDepth : List Char → Nat → Option Nat
  | [], depth => some depth
  | c :: rest, depth =>
    if c = '(' then parenDepth rest (depth + 1)
    else if c = ')' then
      match depth with
      | 0 => none
      | stillOpen + 1 => parenDepth rest stillOpen
    else parenDepth rest depth

/-- Whether every `(` of the text is closed by a later `)` and every `)` closes
an earlier `(`. -/
def parensBalanced (s : String) : Bool :=
  parenDepth s.data 0 = some 0

/-- Two neighbouring characters that do not form the comment closer `*/`. -/
def NotCloser (a b : Char) : Prop :=
  ¬ (a = '*' ∧ b = '/')

/-! ## A sample record -/

/-- A record with by-value and reference parameters of several types, at which
the theorems with hypotheses are instantiated. -/
def sampleRecord : RawNative :=
  { hash := 0x3FEF770D40960D5A,
    name := "_GET_HASH_KEY",
    comment := "Returns the key",
    params := [{ name := "model", type := "Hash", ref := false },
               { name := "speed", type := "float", ref := true },
               { name := "pos", type := "Vector3", ref := true },
               { name := "cb", type := "func", ref := false }],
    results := "[int, float, Vector3]" }

/-! ## The hash splitter: claim C1 -/

theorem hexDigitValue_digitChar (d : Nat) (hd : d < 16) :
    hexDigitValue (Nat.digitChar d) = some d := by
  interval_cases d <;> decide


/-- Folding the digit reader over the output of the digit printer. -/
theorem hexFold_toDigitsCore (fuel : Nat) :
    ∀ (n : Nat) (ds : List Char) , n < fuel →
      (Nat.toDigitsCore 16 fuel n ds).foldl
          (fun acc c => acc.bind (fun a => (hexDigitValue c).map (fun d => 16 * a + d))) (some 0)
        = ds.foldl
          (fun acc c => acc.bind (fun a => (hexDigitValue c).map (fun d => 16 * a + d))) (some n) := by
  induction fuel with
  | zero => intro n ds h; omega
  | succ fuel ih =>
    intro n ds h
    have hmod : n % 16 < 16 := Nat.mod_lt _ (by decide)
    simp only [Nat.toDigitsCore]
    split
    · rename_i h0
      have hlt : n < 16 := by omega
      have e : 16 * 0 + n % 16 = n := by omega
      simp only [List.foldl_cons, Option.some_bind, hexDigitValue_digitChar _ hmod,
        Option.map_some', e]
    · rename_i h0
      have e : 16 * (n / 16) + n % 16 = n := by omega
      rw [ih (n / 16) _ (by omega)]
      simp only [List.foldl_cons, Option.some_bind, hexDigitValue_digitChar _ hmod,
        Option.map_some', e]

theorem hexValue_toDigits (n : Nat) : hexValue (Nat.toDigits 16 n) = some n := by
  unfold hexValue Nat.toDigits
  rw [hexFold_toDigitsCore (n + 1) n [] (by omega)]
  rfl

theorem isHexDigit_toDigitsCore (fuel : Nat) :
    ∀ (n : Nat) (ds : List Char), (∀ c ∈ ds, isHexDigit c = true) →
      ∀ c ∈ Nat.toDigitsCore 16 fuel n ds, isHexDigit c = true := by
  induction fuel with
  | zero => intro n ds h; simpa [Nat.toDigitsCore] using h
  | succ fuel ih =>
    intro n ds h
    have hmod : n % 16 < 16 := Nat.mod_lt _ (by decide)
    have hd : isHexDigit (Nat.digitChar (n % 16)) = true := by
      simp [isHexDigit, hexDigitValue_digitChar _ hmod]
    have hcons : ∀ c ∈ Nat.digitChar (n % 16) :: ds, isHexDigit c = true := by
      intro c hc
      rcases List.mem_cons.mp hc with rfl | hc
      · exact hd
      · exact h c hc
    simp only [Nat.toDigitsCore]
    split
    · exact hcons
    · exact ih _ _ hcons


theorem replicate_singleton_flatten (k : Nat) (c : Char) :
    (List.replicate k [c]).flatten = List.replicate k c := by
  induction k with
  | zero => rfl
  | succ k ih => simp [List.replicate_succ, ih]

/-- Padding a short digit string with zeros to width eight. -/
theorem padStart_zero_data (s : String) (hs : s.data.length ≤ 8) :
    (padStart s 8 "0").data = List.replicate (8 - s.data.length) '0' ++ s.data := by
  unfold padStart
  by_cases h8 : 8 ≤ s.data.length
  · have : s.data.length = 8 := by omega
    simp [this]
  · have hne : ("0" : String).data ≠ [] := by decide
    have hd : ("0" : String).data = ['0'] := by decide
    simp only [h8, hne, or_self, if_false, hd, replicate_singleton_flatten]
    simp

theorem hexValue_replicate_zero (k : Nat) (ds : List Char) :
    hexValue (List.replicate k '0' ++ ds) = hexValue ds := by
  unfold hexValue
  induction k with
  | zero => rfl
  | succ k ih =>
    rw [List.replicate_succ, List.cons_append, List.foldl_cons]
    have : ((some 0 : Option Nat).bind
        (fun a => (hexDigitValue '0').map (fun d => 16 * a + d))) = some 0 := by decide
    rw [this]
    exact ih

theorem toDigits16_length_le (n : Nat) (hn : n < 2 ^ 32) : (Nat.toDigits 16 n).length ≤ 8 := by
  unfold Nat.toDigits
  exact Nat.toDigitsCore_length 16 (by decide) (n + 1) n 8 (by norm_num at hn ⊢; omega) (by decide)


/-- The shape and the value of one printed half-word. -/
theorem hashWord_literal (w : Nat) (hw : w < 2 ^ 32) :
    ∃ ds : List Char, "0x" ++ padStart (toString16 w) 8 "0" = String.mk ('0' :: 'x' :: ds) ∧
      ds.length = 8 ∧ (∀ c ∈ ds, isHexDigit c = true) ∧
      parseHex ("0x" ++ padStart (toString16 w) 8 "0") = some w := by
  have hlen : (toString16 w).data.length ≤ 8 := toDigits16_length_le w hw
  have hdata := padStart_zero_data (toString16 w) hlen
  refine ⟨(padStart (toString16 w) 8 "0").data, ?_, ?_, ?_, ?_⟩
  · apply String.ext
    rw [String.data_append]
    rfl
  · rw [hdata, List.length_append, List.length_replicate]
    omega
  · intro c hc
    rw [hdata, List.mem_append] at hc
    rcases hc with hc | hc
    · rw [List.eq_of_mem_replicate hc]
      decide
    · exact isHexDigit_toDigitsCore (w + 1) w [] (by simp) c hc
  · have hval : hexValue (padStart (toString16 w) 8 "0").data = some w := by
      rw [hdata, hexValue_replicate_zero]
      exact hexValue_toDigits w
    have hl : (padStart (toString16 w) 8 "0").data.length = 8 := by
      rw [hdata, List.length_append, List.length_replicate]
      omega
    unfold parseHex
    rw [String.data_append]
    have h0x : ("0x" : String).data = ['0', 'x'] := by decide
    rw [h0x]
    cases hp : (padStart (toString16 w) 8 "0").data with
    | nil => rw [hp] at hl; simp at hl
    | cons d rest =>
      rw [hp] at hval
      simpa using hval

theorem splitHash_words (h : Nat) :
    splitHash h = { one := "0x" ++ padStart (toString16 (h / 2 ^ 32 % 2 ^ 32)) 8 "0",
                    two := "0x" ++ padStart (toString16 (h % 2 ^ 32)) 8 "0" } := by
  have e : (0xffffffff : Nat) = 2 ^ 32 - 1 := by norm_num
  simp only [splitHash, e, Nat.and_pow_two_sub_one_eq_mod, Nat.shiftRight_eq_div_pow]

theorem splitHash_parse (h : Nat) (hh : h < 2 ^ 64) :
    ∃ a b : Nat, parseHex (splitHash h).one = some a ∧ parseHex (splitHash h).two = some b ∧
      a * 2 ^ 32 + b = h := by
  rw [splitHash_words]
  obtain ⟨_, _, _, _, p1⟩ := hashWord_literal (h / 2 ^ 32 % 2 ^ 32) (Nat.mod_lt _ (by norm_num))
  obtain ⟨_, _, _, _, p2⟩ := hashWord_literal (h % 2 ^ 32) (Nat.mod_lt _ (by norm_num))
  refine ⟨_, _, p1, p2, ?_⟩
  have : h / 2 ^ 32 < 2 ^ 32 := by
    rw [Nat.div_lt_iff_lt_mul (by norm_num)]
    calc h < 2 ^ 64 := hh
      _ = 2 ^ 32 * 2 ^ 32 := by norm_num
  rw [Nat.mod_eq_of_lt this]
  exact Nat.div_add_mod' h (2 ^ 32)

/-- C1: for every hash below `2 ^ 64` both words returned by `splitHash` are `0x`
followed by exactly eight hexadecimal digits, reading the two literals back
gives numbers `a` and `b` with `a * 2 ^ 32 + b` equal to the hash, and two
64-bit hashes with the same words are equal. -/
theorem splitHash_roundtrip (h : Nat) (hh : h < 2 ^ 64) :
    (∃ d1 d2 : List Char,
      (splitHash h).one = String.mk ('0' :: 'x' :: d1) ∧
      (splitHash h).two = String.mk ('0' :: 'x' :: d2) ∧
      d1.length = 8 ∧ d2.length = 8 ∧
      (∀ c ∈ d1, isHexDigit c = true) ∧ (∀ c ∈ d2, isHexDigit c = true)) ∧
    (∃ a b : Nat, parseHex (splitHash h).one = some a ∧ parseHex (splitHash h).two = some b ∧
      a * 2 ^ 32 + b = h) ∧
    (∀ h2 : Nat, h2 < 2 ^ 64 → splitHash h2 = splitHash h → h2 = h) := by
  refine ⟨?_, splitHash_parse h hh, ?_⟩
  · rw [splitHash_words]
    obtain ⟨d1, e1, l1, x1, _⟩ := hashWord_literal (h / 2 ^ 32 % 2 ^ 32) (Nat.mod_lt _ (by norm_num))
    obtain ⟨d2, e2, l2, x2, _⟩ := hashWord_literal (h % 2 ^ 32) (Nat.mod_lt _ (by norm_num))
    exact ⟨d1, d2, e1, e2, l1, l2, x1, x2⟩
  · intro h2 hh2 heq
    obtain ⟨a, b, pa, pb, hab⟩ := splitHash_parse h hh
    obtain ⟨a2, b2, pa2, pb2, hab2⟩ := splitHash_parse h2 hh2
    rw [heq] at pa2 pb2
    rw [pa] at pa2
    rw [pb] at pb2
    cases pa2
    cases pb2
    omega

/-- The round trip of C1 at the hash `0x3FEF770D40960D5A`. -/
theorem splitHash_roundtrip_witness :
    (0x3FEF770D40960D5A : Nat) < 2 ^ 64 ∧
    (∃ a b : Nat, parseHex (splitHash 0x3FEF770D40960D5A).one = some a ∧
      parseHex (splitHash 0x3FEF770D40960D5A).two = some b ∧
      a * 2 ^ 32 + b = 0x3FEF770D40960D5A) ∧
    (∀ h2 : Nat, h2 < 2 ^ 64 → splitHash h2 = splitHash 0x3FEF770D40960D5A →
      h2 = 0x3FEF770D40960D5A) :=
  ⟨by decide, (splitHash_roundtrip 0x3FEF770D40960D5A (by decide)).2⟩
/-! ## The name normalizer: claim C2 -/

theorem modifyHead_self {α : Type} (l : List α) : l.modifyHead (fun seg => seg) = l := by
  cases l <;> rfl

theorem intercalate_nil_sep (ls : List (List Char)) :
    List.intercalate [] ls = ls.flatten := by
  unfold List.intercalate
  induction ls with
  | nil => rfl
  | cons a t ih =>
    cases t with
    | nil => rfl
    | cons b u =>
      show (a :: [] :: List.intersperse [] (b :: u)).flatten = (a :: b :: u).flatten
      rw [List.flatten_cons, List.flatten_cons, ih, List.nil_append]
      rfl

theorem splitGo_singleton (c : Char) :
    ∀ (l cur : List Char),
      splitGo [c] l 0 cur = (l.splitOn c).modifyHead (fun seg => cur ++ seg) := by
  intro l
  induction l with
  | nil => intro cur; simp [splitGo, List.splitOn_nil]
  | cons x rest ih =>
    intro cur
    rw [List.splitOn, List.splitOnP_cons]
    by_cases hx : x = c
    · subst hx
      simp [splitGo, List.isPrefixOf, ih, List.splitOn, modifyHead_self]
    · have hx2 : ¬ c = x := fun h => hx h.symm
      simp [splitGo, List.isPrefixOf, ih, List.splitOn, hx, hx2, Function.comp_def]

theorem split_underscore (s : String) :
    split s "_" = (s.data.splitOn '_').map String.mk := by
  have hsep : ("_" : String).data = ['_'] := by decide
  simp [split, hsep, splitGo_singleton, modifyHead_self]

theorem join_empty_foldl (parts : List String) (init : String) :
    init ++ join parts "" = parts.foldl (fun out p => out ++ p) init := by
  induction parts generalizing init with
  | nil =>
    apply String.ext
    simp [join, intercalate_nil_sep]
  | cons p ps ih =>
    rw [List.foldl_cons, ← ih]
    apply String.ext
    have he : ("" : String).data = [] := rfl
    simp [join, he, intercalate_nil_sep, String.data_append]

theorem startsWith_underscore (s : String) :
    (if startsWith s "_" = true then substring s 1 else s).data =
      (match s.data with
       | '_' :: afterUnderscore => afterUnderscore
       | other => other) := by
  have hsep : ("_" : String).data = ['_'] := by decide
  unfold startsWith substring
  rw [hsep]
  cases hs : s.data with
  | nil => simp [List.isPrefixOf, hs]
  | cons x rest =>
    by_cases hx : x = '_'
    · subst hx
      simp [List.isPrefixOf]
    · have hx2 : ¬ '_' = x := fun h => hx h.symm
      simp only [List.isPrefixOf, beq_iff_eq, hx2, Bool.and_eq_true, false_and, if_false, hs]
      split
      · rename_i heq
        cases heq
        exact absurd rfl hx
      · rfl

theorem getNativeName_general (toLowerCase toUpperCase : String → String) (self : Native) :
    self.getNativeName toLowerCase toUpperCase
      = some (normalizeName toLowerCase toUpperCase self.name) := by
  unfold Native.getNativeName normalizeName
  simp only [split_underscore, startsWith_underscore]
  cases hsp : (match self.name.data with
      | '_' :: afterUnderscore => afterUnderscore
      | other => other).splitOn '_' with
  | nil => exact absurd hsp (List.splitOnP_ne_nil _ _)
  | cons first later =>
    simp only [List.map_cons, List.map_map, join_empty_foldl, List.foldl_map, Function.comp_def,
      charAt, slice, List.drop_zero, String.append_assoc]

/-- C2: `getNativeName` always returns, and returns what the specification
describes: one leading underscore dropped, the remainder cut at underscores,
the first segment lower-cased and every later segment capitalised; with the
ASCII case mapping `SET_ENTITY_COORDS` gives `setEntityCoords` and
`_GET_HASH_KEY` gives `getHashKey`. -/
theorem getNativeName_eq_normalizeName (toLowerCase toUpperCase : String → String) (self : Native) :
    self.getNativeName toLowerCase toUpperCase
        = some (normalizeName toLowerCase toUpperCase self.name) ∧
    (∀ data : RawNative,
      (Native.constructor { data with name := "SET_ENTITY_COORDS" }).getNativeName
        asciiLower asciiUpper = some "setEntityCoords") ∧
    (∀ data : RawNative,
      (Native.constructor { data with name := "_GET_HASH_KEY" }).getNativeName
        asciiLower asciiUpper = some "getHashKey") := by
  refine ⟨getNativeName_general _ _ _, ?_, ?_⟩
  · intro data
    rw [getNativeName_general]
    show some (normalizeName asciiLower asciiUpper "SET_ENTITY_COORDS") = some "setEntityCoords"
    decide
  · intro data
    rw [getNativeName_general]
    show some (normalizeName asciiLower asciiUpper "_GET_HASH_KEY") = some "getHashKey"
    decide


/-! ## The descriptor constructor: claims C3, C4 and C7 -/

/-- A loop that pushes one element per item computes the image of the list. -/
theorem foldl_push_eq_map {α β : Type} (f : α → β) (l : List α) (init : List β) :
    l.foldl (fun acc x => acc ++ [f x]) init = init ++ l.map f := by
  induction l generalizing init with
  | nil => simp
  | cons x xs ih => simp [ih]

theorem splitGo_ne_nil (sep : List Char) :
    ∀ (l : List Char) (skip : Nat) (cur : List Char), splitGo sep l skip cur ≠ [] := by
  intro l
  induction l with
  | nil => intro skip cur; simp [splitGo]
  | cons c rest ih =>
    intro skip cur
    cases skip with
    | zero =>
      simp only [splitGo]
      split
      · simp
      · exact ih 0 _
    | succ k =>
      simp only [splitGo]
      exact ih k cur

theorem split_comma_ne_nil (s : String) : split s ", " ≠ [] := by
  have hsep : (", " : String).data ≠ [] := by decide
  simp [split, hsep, splitGo_ne_nil]

theorem constructor_results (data : RawNative) :
    (Native.constructor data).results = (split data.results ", ").map getTypescriptReturnType := by
  have hpos : ¬ (split data.results ", ").length ≤ 0 := by
    have := split_comma_ne_nil data.results
    have := List.length_pos.mpr this
    omega
  simp only [Native.constructor, hpos, if_false, foldl_push_eq_map, List.nil_append]

theorem constructor_params (data : RawNative) :
    (Native.constructor data).params
      = data.params.map (fun param =>
          ({ name := param.name, type := getParamType (.str param.type), ref := param.ref } : Param)) := by
  simp only [Native.constructor, foldl_push_eq_map, List.nil_append]

theorem getTypescriptType_range (t : TypeValue) :
    getTypescriptType t ∈ ["string", "boolean", "number", "Vector3", "any"] := by
  unfold getTypescriptType
  simp only []
  split_ifs <;> decide

theorem getTypescriptReturnType_range (s : String) :
    getTypescriptReturnType s ∈ ["void", "string", "boolean", "number", "Vector3", "any"] := by
  unfold getTypescriptReturnType
  simp only []
  split_ifs
  · decide
  · exact List.mem_cons_of_mem _ (getTypescriptType_range _)

/-- C3, counterexample: a record whose results specification is the empty string
gets a results list different from `["void"]`. -/
theorem constructor_empty_results_not_void :
    (Native.constructor
      { hash := 0, name := "NOP", comment := "", params := [], results := "" }).results
      ≠ ["void"] := by
  decide

/-- C3, amended: for every raw record whose results specification is the empty
string, the results list of the constructed descriptor is exactly `["any"]`:
the one empty segment goes through the fallback of the surface-type mapping. -/
theorem constructor_empty_results (data : RawNative) (hempty : data.results = "") :
    (Native.constructor data).results = ["any"] := by
  rw [constructor_results, hempty]
  decide

/-- The amended C3 at a record with an empty results specification. -/
theorem constructor_empty_results_witness :
    ({ hash := 0, name := "NOP", comment := "", params := [], results := "" } : RawNative).results
        = "" ∧
    (Native.constructor
      { hash := 0, name := "NOP", comment := "", params := [], results := "" }).results
      = ["any"] :=
  ⟨rfl, constructor_empty_results
    { hash := 0, name := "NOP", comment := "", params := [], results := "" } rfl⟩

/-- C4: for every raw record the results list of the constructed descriptor is
non-empty, has one entry per segment of the specification split on `, ` (it is
the image of the segments under `getTypescriptReturnType`), and every entry is
one of `void`, `string`, `boolean`, `number`, `Vector3`, `any`. -/
theorem constructor_results_nonempty (data : RawNative) :
    (Native.constructor data).results ≠ [] ∧
    (Native.constructor data).results.length = (split data.results ", ").length ∧
    (Native.constructor data).results = (split data.results ", ").map getTypescriptReturnType ∧
    (∀ entry ∈ (Native.constructor data).results,
      entry ∈ ["void", "string", "boolean", "number", "Vector3", "any"]) := by
  rw [constructor_results]
  refine ⟨?_, ?_, rfl, ?_⟩
  · simpa using split_comma_ne_nil data.results
  · simp
  · intro entry hentry
    obtain ⟨seg, _, rfl⟩ := List.mem_map.mp hentry
    exact getTypescriptReturnType_range seg

/-- What line 66 computes: the first `[` is erased, then the first `]`. -/
theorem replace_brackets_erase (s : String) :
    replace (replace s "[" "") "]" "" = String.mk ((s.data.erase '[').erase ']') := by
  have hgo : ∀ (c : Char) (l : List Char), replaceGo [c] [] l = l.erase c := by
    intro c l
    induction l with
    | nil => simp [replaceGo]
    | cons x rest ih =>
      by_cases hx : x = c
      · subst hx
        simp [replaceGo, List.isPrefixOf]
      · have hx2 : ¬ c = x := fun h => hx h.symm
        simp [replaceGo, List.isPrefixOf, hx, hx2, ih, List.erase_cons]
  have ho : ("[" : String).data = ['['] := by decide
  have hc : ("]" : String).data = [']'] := by decide
  have he : ("" : String).data = [] := rfl
  simp only [replace, ho, hc, he, hgo]

/-- C5, the code at the failing input: `replace` with a string pattern removes
only the first `[` and the first `]`, so `[[int]]` is mapped as `[int]` and
gives `any`, whereas removing every bracket gives `number`; `[int]` gives
`number`. -/
theorem getTypescriptReturnType_nested_brackets :
    getTypescriptReturnType "[[int]]" = "any" ∧
    mapReturnSurfaceType "[[int]]" = "number" ∧
    getTypescriptReturnType "[int]" = "number" ∧
    replace (replace "[[int]]" "[" "") "]" "" = "[int]" := by
  decide

/-- C6, the code at the failing input: `constructor` is not one of the 18 keys
of the table, yet `getParamType` does not return the string unchanged; the
lookup finds the member of `Object.prototype` of that name, which is truthy, so
the fallback is not taken and a value that is not a string is returned. -/
theorem getParamType_constructor_key :
    getParamType (.str "constructor") = .inherited "constructor" ∧
    getParamType (.str "constructor") ≠ .str "constructor" ∧
    nativeParamTypes.lookup "constructor" = none ∧
    nativeParamTypes.length = 18 := by
  decide

/-- The part of C6 that holds for the keys: each of the 18 entries of the table
is returned for its key. -/
theorem getParamType_table :
    ∀ entry ∈ nativeParamTypes, getParamType (.str entry.1) = .str entry.2 := by
  decide

/-- The part of C6 that holds for the fallback: a string that is neither a key
of the table nor a property name of `Object.prototype` comes back unchanged. -/
theorem getParamType_identity (t : String) (hkey : nativeParamTypes.lookup t = none)
    (hproto : t ∉ objectPrototypeKeys) : getParamType (.str t) = .str t := by
  simp [getParamType, nativeParamTypesGet, hkey, hproto]

/-- C7: the params list of the constructed descriptor has the length of the raw
parameter list, and at every index it holds the raw parameter's name and
reference flag unchanged together with the type `getParamType` gives for the
raw parameter. -/
theorem constructor_params_pointwise (data : RawNative) :
    (Native.constructor data).params.length = data.params.length ∧
    (∀ i : Nat, (Native.constructor data).params[i]? =
      (data.params[i]?).map (fun raw =>
        ({ name := raw.name, type := getParamType (.str raw.type), ref := raw.ref } : Param))) := by
  rw [constructor_params]
  exact ⟨by simp, fun i => by simp⟩

/-! ## The invocation arguments: claims C8, C9 and C10 -/

theorem getReferenceParams_eq_filter (self : Native) :
    self.getReferenceParams = self.params.filter (fun p => p.ref) := by
  unfold Native.getReferenceParams
  suffices h : ∀ (l init : List Param),
      l.foldl (fun params param => if param.ref = true then params ++ [param] else params) init
        = init ++ l.filter (fun p => p.ref) by
    simpa using h self.params []
  intro l
  induction l with
  | nil => intro init; simp
  | cons x xs ih =>
    intro init
    by_cases hx : x.ref = true
    · simp [ih, hx]
    · simp [ih, hx]

/-- The list built by `getInvokeArgs`: the two hash words, one argument per
parameter, then the markers chosen by the primary result. -/
theorem getInvokeArgs_eq (self : Native) :
    self.getInvokeArgs
      = [(splitHash self.hash).one, (splitHash self.hash).two]
        ++ self.params.map self.invokeArg
        ++ (match self.results with
            | [] => []
            | primary :: _ =>
              if primary = "void" then []
              else if primary = "boolean" then ["_r"]
              else ["_r", getNativeReturnType primary]) := by
  unfold Native.getInvokeArgs
  simp only [foldl_push_eq_map]
  cases self.results with
  | nil => simp
  | cons primary others =>
    by_cases hv : primary = "void"
    · simp [hv]
    · by_cases hb : primary = "boolean"
      · simp [hb]
      · simp [hv, hb]

/-- The argument of the parameter at index `i` sits at index `2 + i`. -/
theorem getInvokeArgs_param (self : Native) (i : Nat) (p : Param)
    (hp : self.params[i]? = some p) :
    self.getInvokeArgs[2 + i]? = some (self.invokeArg p) := by
  rw [getInvokeArgs_eq]
  have hlt : i < self.params.length := by
    rcases Nat.lt_or_ge i self.params.length with h | h
    · exact h
    · rw [List.getElem?_eq_none h] at hp
      cases hp
  rw [List.append_assoc, List.getElem?_append_right (by simp)]
  simp only [List.length_cons, List.length_nil, Nat.add_sub_cancel_left]
  rw [List.getElem?_append_left (by simpa using hlt), List.getElem?_map, hp]
  rfl

/-- C8: for a descriptor with primary result `primary`, `getInvokeArgs` is the
high word, the low word, one argument per parameter in declaration order, and
then `k` markers, where `k` is 0 for `void`, 1 for `boolean` and 2 otherwise;
its length is `2 + n + k`. -/
theorem getInvokeArgs_layout (self : Native) (primary : String) (others : List String)
    (hres : self.results = primary :: others) :
    ∃ markers : List String,
      self.getInvokeArgs
        = [(splitHash self.hash).one, (splitHash self.hash).two]
          ++ self.params.map self.invokeArg ++ markers ∧
      self.getInvokeArgs[0]? = some (splitHash self.hash).one ∧
      self.getInvokeArgs[1]? = some (splitHash self.hash).two ∧
      (∀ (i : Nat) (p : Param), self.params[i]? = some p →
        self.getInvokeArgs[2 + i]? = some (self.invokeArg p)) ∧
      markers.length = (if primary = "void" then 0 else if primary = "boolean" then 1 else 2) ∧
      self.getInvokeArgs.length
        = 2 + self.params.length
          + (if primary = "void" then 0 else if primary = "boolean" then 1 else 2) := by
  have heq : self.getInvokeArgs
      = [(splitHash self.hash).one, (splitHash self.hash).two]
        ++ self.params.map self.invokeArg
        ++ (if primary = "void" then []
            else if primary = "boolean" then ["_r"]
            else ["_r", getNativeReturnType primary]) := by
    rw [getInvokeArgs_eq, hres]
  refine ⟨_, heq, ?_, ?_, getInvokeArgs_param self, ?_, ?_⟩
  · rw [heq]
    simp
  · rw [heq]
    simp
  · split_ifs <;> rfl
  · rw [heq]
    simp only [List.length_append, List.length_cons, List.length_nil, List.length_map]
    split_ifs <;> simp

/-- C8 at the descriptor of the sample record: four parameters and a primary
result `number` give eight arguments. -/
theorem getInvokeArgs_layout_witness :
    (Native.constructor sampleRecord).results = "number" :: ["number", "Vector3"] ∧
    (Native.constructor sampleRecord).getInvokeArgs.length = 2 + 4 + 2 :=
  ⟨by decide,
   by
    obtain ⟨_, _, _, _, _, _, hlen⟩ :=
      getInvokeArgs_layout (Native.constructor sampleRecord) "number" ["number", "Vector3"]
        (by decide)
    exact hlen⟩

theorem looseEq_iff (t : TypeValue) (lit : String) :
    t.looseEq lit = true ↔ t = .str lit := by
  cases t with
  | str s => simp [TypeValue.looseEq]
  | inherited k => simp [TypeValue.looseEq]

theorem append_ne_empty_of_left (a b : String) (ha : a.data ≠ []) : a ++ b ≠ "" := by
  intro h
  have hd := congrArg String.data h
  rw [String.data_append] at hd
  have he : ("" : String).data = [] := rfl
  rw [he] at hd
  exact ha (List.append_eq_nil.mp hd).1

theorem wrapper_ne_empty (opener name : String) (ho : opener.data ≠ []) :
    opener ++ name ++ ")" ≠ "" :=
  append_ne_empty_of_left _ _ (by
    rw [String.data_append]
    intro h
    exact ho (List.append_eq_nil.mp h).1)

theorem getReferenceParams_length_pos (self : Native) (i : Nat) (p : Param)
    (hp : self.params[i]? = some p) (href : p.ref = true) :
    1 ≤ self.getReferenceParams.length := by
  rw [getReferenceParams_eq_filter]
  have hmem : p ∈ self.params := List.getElem?_mem hp
  have : p ∈ self.params.filter (fun p => p.ref) := List.mem_filter.mpr ⟨hmem, href⟩
  exact List.length_pos_of_mem this

/-- The argument emitted for a reference parameter, by type. -/
theorem invokeArg_ref (self : Native) (p : Param) (href : p.ref = true) :
    (p.type = .str "Vector3" → self.invokeArg p = "_v") ∧
    (p.type = .str "int" → self.getReferenceParams.length = 1 →
      self.invokeArg p = "_ii(" ++ p.name ++ ")") ∧
    (p.type = .str "float" → self.getReferenceParams.length = 1 →
      self.invokeArg p = "_fi(" ++ p.name ++ ")") ∧
    (p.type = .str "int" → 1 < self.getReferenceParams.length → self.invokeArg p = "_i") ∧
    (p.type = .str "float" → 1 < self.getReferenceParams.length → self.invokeArg p = "_f") ∧
    (p.type ≠ .str "Vector3" → p.type ≠ .str "int" → p.type ≠ .str "float" →
      self.invokeArg p = "_i") := by
  have hii : "_ii(" ++ p.name ++ ")" ≠ "" := wrapper_ne_empty _ _ (by decide)
  have hfi : "_fi(" ++ p.name ++ ")" ≠ "" := wrapper_ne_empty _ _ (by decide)
  refine ⟨?_, ?_, ?_, ?_, ?_, ?_⟩
  · intro ht
    simp [Native.invokeArg, href, ht, TypeValue.looseEq]
  · intro ht h1
    simp [Native.invokeArg, href, ht, TypeValue.looseEq, Native.isSinglePointer, h1, hii]
  · intro ht h1
    simp [Native.invokeArg, href, ht, TypeValue.looseEq, Native.isSinglePointer, h1, hfi]
  · intro ht h1
    have : ¬ self.getReferenceParams.length = 1 := by omega
    simp [Native.invokeArg, href, ht, TypeValue.looseEq, Native.isSinglePointer, this]
  · intro ht h1
    have : ¬ self.getReferenceParams.length = 1 := by omega
    simp [Native.invokeArg, href, ht, TypeValue.looseEq, Native.isSinglePointer, this]
  · intro hv hi hf
    have e1 : p.type.looseEq "Vector3" = false := by
      rw [Bool.eq_false_iff]; exact fun h => hv ((looseEq_iff _ _).mp h)
    have e2 : p.type.looseEq "int" = false := by
      rw [Bool.eq_false_iff]; exact fun h => hi ((looseEq_iff _ _).mp h)
    have e3 : p.type.looseEq "float" = false := by
      rw [Bool.eq_false_iff]; exact fun h => hf ((looseEq_iff _ _).mp h)
    simp [Native.invokeArg, href, e1, e2, e3]

/-- The argument emitted for a by-value parameter, by type. -/
theorem invokeArg_value (self : Native) (p : Param) (href : p.ref = false) :
    (p.type = .str "func" → self.invokeArg p = "_mfr(" ++ p.name ++ ")") ∧
    (p.type = .str "float" → self.invokeArg p = "_fv(" ++ p.name ++ ")") ∧
    (p.type = .str "hash" → self.invokeArg p = "_ch(" ++ p.name ++ ")") ∧
    (p.type = .str "object" → self.invokeArg p = "...(_obj(" ++ p.name ++ ")") ∧
    (p.type = .str "string" → self.invokeArg p = "_ts(" ++ p.name ++ ")") ∧
    (p.type = .str "char" → self.invokeArg p = "_ts(" ++ p.name ++ ")") ∧
    (p.type ≠ .str "func" → p.type ≠ .str "float" → p.type ≠ .str "hash" →
      p.type ≠ .str "object" → p.type ≠ .str "string" → p.type ≠ .str "char" →
      self.invokeArg p = p.name) := by
  have h1 : "_mfr(" ++ p.name ++ ")" ≠ "" := wrapper_ne_empty _ _ (by decide)
  have h2 : "_fv(" ++ p.name ++ ")" ≠ "" := wrapper_ne_empty _ _ (by decide)
  have h3 : "_ch(" ++ p.name ++ ")" ≠ "" := wrapper_ne_empty _ _ (by decide)
  have h4 : "...(_obj(" ++ p.name ++ ")" ≠ "" := wrapper_ne_empty _ _ (by decide)
  have h5 : "_ts(" ++ p.name ++ ")" ≠ "" := wrapper_ne_empty _ _ (by decide)
  refine ⟨?_, ?_, ?_, ?_, ?_, ?_, ?_⟩
  · intro ht
    simp [Native.invokeArg, href, ht, TypeValue.looseEq, h1]
  · intro ht
    simp [Native.invokeArg, href, ht, TypeValue.looseEq, h2]
  · intro ht
    simp [Native.invokeArg, href, ht, TypeValue.looseEq, h3]
  · intro ht
    simp [Native.invokeArg, href, ht, TypeValue.looseEq, h4]
  · intro ht
    simp [Native.invokeArg, href, ht, TypeValue.looseEq, h5]
  · intro ht
    simp [Native.invokeArg, href, ht, TypeValue.looseEq, h5]
  · intro n1 n2 n3 n4 n5 n6
    have e1 : p.type.looseEq "func" = false := by
      rw [Bool.eq_false_iff]; exact fun h => n1 ((looseEq_iff _ _).mp h)
    have e2 : p.type.looseEq "float" = false := by
      rw [Bool.eq_false_iff]; exact fun h => n2 ((looseEq_iff _ _).mp h)
    have e3 : p.type.looseEq "hash" = false := by
      rw [Bool.eq_false_iff]; exact fun h => n3 ((looseEq_iff _ _).mp h)
    have e4 : p.type.looseEq "object" = false := by
      rw [Bool.eq_false_iff]; exact fun h => n4 ((looseEq_iff _ _).mp h)
    have e5 : p.type.looseEq "string" = false := by
      rw [Bool.eq_false_iff]; exact fun h => n5 ((looseEq_iff _ _).mp h)
    have e6 : p.type.looseEq "char" = false := by
      rw [Bool.eq_false_iff]; exact fun h => n6 ((looseEq_iff _ _).mp h)
    simp only [Native.invokeArg, href, e1, e2, e3, e4, e5, e6]
    simp

/-- C9: the argument emitted for a reference parameter `p` (at index `2 + i`
when `p` is the parameter of index `i`) is `_v` for Vector3, `_ii(name)` for int
and `_fi(name)` for float when `p` is the only reference parameter, `_i` for
int and `_f` for float when there are several, and `_i` for every other type. -/
theorem getInvokeArgs_reference_param (self : Native) (i : Nat) (p : Param)
    (hp : self.params[i]? = some p) (href : p.ref = true) :
    1 ≤ self.getReferenceParams.length ∧
    (p.type = .str "Vector3" → self.getInvokeArgs[2 + i]? = some "_v") ∧
    (p.type = .str "int" → self.getReferenceParams.length = 1 →
      self.getInvokeArgs[2 + i]? = some ("_ii(" ++ p.name ++ ")")) ∧
    (p.type = .str "float" → self.getReferenceParams.length = 1 →
      self.getInvokeArgs[2 + i]? = some ("_fi(" ++ p.name ++ ")")) ∧
    (p.type = .str "int" → 1 < self.getReferenceParams.length →
      self.getInvokeArgs[2 + i]? = some "_i") ∧
    (p.type = .str "float" → 1 < self.getReferenceParams.length →
      self.getInvokeArgs[2 + i]? = some "_f") ∧
    (p.type ≠ .str "Vector3" → p.type ≠ .str "int" → p.type ≠ .str "float" →
      self.getInvokeArgs[2 + i]? = some "_i") := by
  obtain ⟨c1, c2, c3, c4, c5, c6⟩ := invokeArg_ref self p href
  rw [getInvokeArgs_param self i p hp]
  refine ⟨getReferenceParams_length_pos self i p hp href, ?_, ?_, ?_, ?_, ?_, ?_⟩
  · intro ht; rw [c1 ht]
  · intro ht h1; rw [c2 ht h1]
  · intro ht h1; rw [c3 ht h1]
  · intro ht h1; rw [c4 ht h1]
  · intro ht h1; rw [c5 ht h1]
  · intro a b c; rw [c6 a b c]

/-- C9 at the two reference parameters of the sample record. -/
theorem getInvokeArgs_reference_param_witness :
    (Native.constructor sampleRecord).params[1]?
        = some { name := "speed", type := .str "float", ref := true } ∧
    (Native.constructor sampleRecord).getInvokeArgs[2 + 1]? = some "_f" ∧
    (Native.constructor sampleRecord).getInvokeArgs[2 + 2]? = some "_v" :=
  ⟨by decide,
   (getInvokeArgs_reference_param (Native.constructor sampleRecord) 1
      { name := "speed", type := .str "float", ref := true } (by decide) rfl).2.2.2.2.2.1
      rfl (by decide),
   (getInvokeArgs_reference_param (Native.constructor sampleRecord) 2
      { name := "pos", type := .str "Vector3", ref := true } (by decide) rfl).2.1 rfl⟩

/-- C10: the argument emitted for a by-value parameter `p` wraps the name of `p`
for the types func (`_mfr(`), float (`_fv(`), hash (`_ch(`), object
(`...(_obj(`), string and char (`_ts(`), each wrapper being the opening text,
the name and one `)`; for every other type it is the bare name.  This holds for
the empty name as well. -/
theorem getInvokeArgs_value_param (self : Native) (i : Nat) (p : Param)
    (hp : self.params[i]? = some p) (href : p.ref = false) :
    (p.type = .str "func" → self.getInvokeArgs[2 + i]? = some ("_mfr(" ++ p.name ++ ")")) ∧
    (p.type = .str "float" → self.getInvokeArgs[2 + i]? = some ("_fv(" ++ p.name ++ ")")) ∧
    (p.type = .str "hash" → self.getInvokeArgs[2 + i]? = some ("_ch(" ++ p.name ++ ")")) ∧
    (p.type = .str "object" →
      self.getInvokeArgs[2 + i]? = some ("...(_obj(" ++ p.name ++ ")")) ∧
    (p.type = .str "string" → self.getInvokeArgs[2 + i]? = some ("_ts(" ++ p.name ++ ")")) ∧
    (p.type = .str "char" → self.getInvokeArgs[2 + i]? = some ("_ts(" ++ p.name ++ ")")) ∧
    (p.type ≠ .str "func" → p.type ≠ .str "float" → p.type ≠ .str "hash" →
      p.type ≠ .str "object" → p.type ≠ .str "string" → p.type ≠ .str "char" →
      self.getInvokeArgs[2 + i]? = some p.name) := by
  obtain ⟨c1, c2, c3, c4, c5, c6, c7⟩ := invokeArg_value self p href
  rw [getInvokeArgs_param self i p hp]
  refine ⟨?_, ?_, ?_, ?_, ?_, ?_, ?_⟩
  · intro ht; rw [c1 ht]
  · intro ht; rw [c2 ht]
  · intro ht; rw [c3 ht]
  · intro ht; rw [c4 ht]
  · intro ht; rw [c5 ht]
  · intro ht; rw [c6 ht]
  · intro n1 n2 n3 n4 n5 n6; rw [c7 n1 n2 n3 n4 n5 n6]

/-- C10 at two by-value parameters of the sample record. -/
theorem getInvokeArgs_value_param_witness :
    (Native.constructor sampleRecord).params[0]?
        = some { name := "model", type := .str "hash", ref := false } ∧
    (Native.constructor sampleRecord).getInvokeArgs[2 + 0]? = some "_ch(model)" ∧
    (Native.constructor sampleRecord).getInvokeArgs[2 + 3]? = some "_mfr(cb)" :=
  ⟨by decide,
   (getInvokeArgs_value_param (Native.constructor sampleRecord) 0
      { name := "model", type := .str "hash", ref := false } (by decide) rfl).2.2.1 rfl,
   (getInvokeArgs_value_param (Native.constructor sampleRecord) 3
      { name := "cb", type := .str "func", ref := false } (by decide) rfl).1 rfl⟩



/-! ## The result markers and the body: claims C11, C12 and C13 -/

/-- C11: for every descriptor whose primary result is `boolean`, `getInvokeArgs`
is the two hash words, the per-parameter arguments and then exactly one
element, `_r`; the list ends there, no reader marker follows. -/
theorem getInvokeArgs_boolean (self : Native) (others : List String)
    (hres : self.results = "boolean" :: others) :
    self.getInvokeArgs
      = [(splitHash self.hash).one, (splitHash self.hash).two]
        ++ self.params.map self.invokeArg ++ ["_r"] ∧
    self.getInvokeArgs.length = 2 + self.params.length + 1 ∧
    self.getInvokeArgs.getLast? = some "_r" := by
  have heq : self.getInvokeArgs
      = [(splitHash self.hash).one, (splitHash self.hash).two]
        ++ self.params.map self.invokeArg ++ ["_r"] := by
    rw [getInvokeArgs_eq, hres]
    rfl
  refine ⟨heq, ?_, ?_⟩
  · rw [heq]
    simp only [List.length_append, List.length_cons, List.length_nil, List.length_map]
  · rw [heq]
    exact List.getLast?_concat _

/-- C11 at the sample record with the results specification `boolean`. -/
theorem getInvokeArgs_boolean_witness :
    (Native.constructor { sampleRecord with results := "boolean" }).results = "boolean" :: [] ∧
    (Native.constructor { sampleRecord with results := "boolean" }).getInvokeArgs.getLast?
      = some "_r" :=
  ⟨by decide,
   (getInvokeArgs_boolean (Native.constructor { sampleRecord with results := "boolean" }) []
      (by decide)).2.2⟩

/-- C12: for every descriptor with no reference parameters and primary result
`void`, `getInvokeArgs` is the two hash words followed by one argument per
parameter, with no marker after them, and `genBody` is `return _in(`, those
arguments joined by `, `, and `)`. -/
theorem genBody_void (self : Native) (others : List String)
    (hrefs : self.getReferenceParams = []) (hres : self.results = "void" :: others) :
    self.getInvokeArgs
      = [(splitHash self.hash).one, (splitHash self.hash).two]
        ++ self.params.map self.invokeArg ∧
    self.genBody
      = "return _in("
        ++ join ([(splitHash self.hash).one, (splitHash self.hash).two]
                  ++ self.params.map self.invokeArg) ", "
        ++ ")" := by
  have heq : self.getInvokeArgs
      = [(splitHash self.hash).one, (splitHash self.hash).two]
        ++ self.params.map self.invokeArg := by
    rw [getInvokeArgs_eq, hres]
    simp
  refine ⟨heq, ?_⟩
  unfold Native.genBody
  simp only [hrefs, heq]
  simp

/-- C12 at a record with two by-value parameters and the result `void`. -/
theorem genBody_void_witness :
    (Native.constructor
      { hash := 0xECB2FC7235A7D137, name := "SET_SPEED", comment := "",
        params := [{ name := "entity", type := "Entity", ref := false },
                   { name := "speed", type := "float", ref := false }],
        results := "void" }).genBody
      = "return _in(0xecb2fc72, 0x35a7d137, entity, _fv(speed))" := by
  have h := genBody_void
    (Native.constructor
      { hash := 0xECB2FC7235A7D137, name := "SET_SPEED", comment := "",
        params := [{ name := "entity", type := "Entity", ref := false },
                   { name := "speed", type := "float", ref := false }],
        results := "void" }) [] (by decide) (by decide)
  rw [h.2]
  decide

/-- C13, the code at the failing inputs: the reader is chosen from the surface
type stored in `results`, not from the declared return type, so a record that
declares `float` (surface type `number`) gets `_r` followed by the default
reader `_ri` and not `_rf`; likewise `char`, `long` and `object` get `_ri`. -/
theorem getInvokeArgs_float_reader :
    (Native.constructor { sampleRecord with results := "float" }).results = ["number"] ∧
    (Native.constructor { sampleRecord with results := "float" }).getInvokeArgs
      = ["0x3fef770d", "0x40960d5a", "_ch(model)", "_f", "_v", "_mfr(cb)", "_r", "_ri"] ∧
    getNativeReturnType "float" = "_rf" ∧
    (Native.constructor { sampleRecord with results := "char" }).getInvokeArgs.getLast?
      = some "_ri" ∧
    (Native.constructor { sampleRecord with results := "long" }).getInvokeArgs.getLast?
      = some "_ri" ∧
    (Native.constructor { sampleRecord with results := "object" }).getInvokeArgs.getLast?
      = some "_ri" := by
  decide

/-- The readers that a constructed descriptor can get: the primary result is a
surface type, so only `_s`, `_rv` and the default `_ri` are reachable. -/
theorem getInvokeArgs_reader_reachable (data : RawNative) (primary : String)
    (others : List String) (hres : (Native.constructor data).results = primary :: others) :
    getNativeReturnType primary = "_s" ∨ getNativeReturnType primary = "_rv" ∨
      getNativeReturnType primary = "_ri" := by
  have hmem : primary ∈ ["void", "string", "boolean", "number", "Vector3", "any"] := by
    have h := (constructor_results data).symm
    have hr : primary ∈ (Native.constructor data).results := by rw [hres]; simp
    rw [constructor_results] at hr
    obtain ⟨seg, _, rfl⟩ := List.mem_map.mp hr
    exact getTypescriptReturnType_range seg
  simp only [List.mem_cons, List.mem_singleton, List.not_mem_nil, or_false] at hmem
  rcases hmem with h | h | h | h | h | h <;> subst h <;> decide



/-! ## The signature: claims C14, C15, C16 and C17 -/

/-- A loop that skips some items and pushes one element for each of the others
computes the image of the items it keeps. -/
theorem foldl_skip_push_eq {α β : Type} (skip : α → Bool) (f : α → β) (l : List α)
    (init : List β) :
    l.foldl (fun acc x => if skip x = true then acc else acc ++ [f x]) init
      = init ++ (l.filter (fun x => !skip x)).map f := by
  induction l generalizing init with
  | nil => simp
  | cons x xs ih =>
    by_cases hx : skip x = true
    · simp [ih, hx]
    · simp [ih, hx]

/-- The entries joined by `genParams`. -/
theorem genParams_eq (self : Native) :
    self.genParams
      = join ((self.params.filter (fun p => !(p.ref && !self.isSinglePointer))).map
          (fun p => p.name ++ ": " ++ getTypescriptType p.type)) ", " := by
  have h := foldl_skip_push_eq (fun p : Param => p.ref && !self.isSinglePointer)
    (fun p => p.name ++ ": " ++ getTypescriptType p.type) self.params []
  simp only [List.nil_append] at h
  unfold Native.genParams
  simp only [h]

/-- With exactly one reference parameter no parameter is skipped. -/
theorem genParams_single (self : Native) (hone : self.getReferenceParams.length = 1) :
    self.genParams
      = join (self.params.map (fun p => p.name ++ ": " ++ getTypescriptType p.type)) ", " := by
  rw [genParams_eq]
  have hall : self.params.filter (fun p => !(p.ref && !self.isSinglePointer)) = self.params := by
    apply List.filter_eq_self.mpr
    intro p _
    cases p.ref <;> simp [Native.isSinglePointer, hone]
  rw [hall]

/-- A results list with one entry gives that entry. -/
theorem genReturnTypes_single (self : Native) (only : String) (hres : self.results = [only]) :
    self.genReturnTypes = some only := by
  simp [Native.genReturnTypes, hres]

/-- A results list with two or more entries gives the bracketed list of the
entries after the first. -/
theorem genReturnTypes_tuple (self : Native) (h2 : 2 ≤ self.results.length) :
    self.genReturnTypes = some ("[" ++ join (self.results.drop 1) ", " ++ "]") := by
  have : ¬ self.results.length ≤ 1 := by omega
  simp [Native.genReturnTypes, this]

/-- C14: `genParams` is the `, `-joined list of the entries `name: surfaceType`,
in declaration order, over the parameters that are by-value or belong to a
descriptor with exactly one reference parameter; with two or more reference
parameters exactly the by-value parameters appear, with exactly one (or none)
every parameter appears at its declaration position. -/
theorem genParams_exposed (self : Native) :
    self.genParams
      = join ((self.params.filter
            (fun p => !p.ref || self.getReferenceParams.length == 1)).map
          (fun p => p.name ++ ": " ++ getTypescriptType p.type)) ", " ∧
    (2 ≤ self.getReferenceParams.length →
      self.genParams
        = join ((self.params.filter (fun p => !p.ref)).map
            (fun p => p.name ++ ": " ++ getTypescriptType p.type)) ", ") ∧
    (self.getReferenceParams.length = 1 →
      self.genParams
        = join (self.params.map (fun p => p.name ++ ": " ++ getTypescriptType p.type)) ", ") ∧
    (self.getReferenceParams.length = 0 →
      self.genParams
        = join (self.params.map (fun p => p.name ++ ": " ++ getTypescriptType p.type)) ", ") := by
  have hfilter : ∀ q : Param → Bool,
      (∀ p ∈ self.params, (!(p.ref && !self.isSinglePointer)) = q p) →
      self.genParams
        = join ((self.params.filter q).map
            (fun p => p.name ++ ": " ++ getTypescriptType p.type)) ", " := by
    intro q hq
    rw [genParams_eq]
    congr 2
    exact List.filter_congr hq
  refine ⟨?_, ?_, ?_, ?_⟩
  · apply hfilter
    intro p _
    cases p.ref <;> simp [Native.isSinglePointer]
  · intro h2
    apply hfilter
    intro p _
    have : ¬ self.getReferenceParams.length = 1 := by omega
    cases p.ref <;> simp [Native.isSinglePointer, this]
  · exact genParams_single self
  · intro h0
    have hnone : ∀ p ∈ self.params, p.ref = false := by
      intro p hp
      have hnil : self.params.filter (fun p => p.ref) = [] := by
        rw [← getReferenceParams_eq_filter]
        exact List.length_eq_zero.mp h0
      cases hr : p.ref with
      | false => rfl
      | true =>
        have : p ∈ self.params.filter (fun p => p.ref) := List.mem_filter.mpr ⟨hp, hr⟩
        rw [hnil] at this
        cases this
    have h := hfilter (fun _ => true) (by
      intro p hp
      simp [hnone p hp])
    rw [h]
    simp

/-- C15: `genReturnTypes` returns the single entry when `results` has exactly one
entry and, with two or more entries, `[` followed by the `, `-joined entries
after the first and `]`; a constructed descriptor has one entry or more.  The
call works on a copy: the descriptor's own array is unchanged when it ends. -/
theorem genReturnTypes_cases (self : Native) :
    (∀ only : String, self.results = [only] → self.genReturnTypes = some only) ∧
    (2 ≤ self.results.length →
      self.genReturnTypes = some ("[" ++ join (self.results.drop 1) ", " ++ "]")) ∧
    self.genReturnTypesRun.1 = self.genReturnTypes ∧
    self.genReturnTypesRun.2.own = self.results ∧
    (∀ data : RawNative, (Native.constructor data).results.length = 1 ∨
      2 ≤ (Native.constructor data).results.length) := by
  refine ⟨?_, ?_, ?_, ?_, ?_⟩
  · exact genReturnTypes_single self
  · exact genReturnTypes_tuple self
  · unfold Native.genReturnTypesRun Native.genReturnTypes
    simp only []
    split_ifs <;> rfl
  · unfold Native.genReturnTypesRun
    simp only []
    split_ifs <;> rfl
  · intro data
    have hpos : 0 < (Native.constructor data).results.length := by
      rw [constructor_results, List.length_map]
      exact List.length_pos.mpr (split_comma_ne_nil data.results)
    omega

/-- C16, counterexample: a descriptor with exactly one reference parameter, of
type int, and the primary result `number` whose results list has two entries
gets the bracketed tuple `[number]`, not the primary result. -/
theorem genReturnTypes_single_reference_tuple :
    (Native.constructor
      { hash := 0x2975C866E6713290, name := "GET_COUNT", comment := "",
        params := [{ name := "count", type := "int", ref := true }],
        results := "[int, int]" }).params
      = [{ name := "count", type := .str "int", ref := true }] ∧
    (Native.constructor
      { hash := 0x2975C866E6713290, name := "GET_COUNT", comment := "",
        params := [{ name := "count", type := "int", ref := true }],
        results := "[int, int]" }).getReferenceParams.length = 1 ∧
    (Native.constructor
      { hash := 0x2975C866E6713290, name := "GET_COUNT", comment := "",
        params := [{ name := "count", type := "int", ref := true }],
        results := "[int, int]" }).results = ["number", "number"] ∧
    (Native.constructor
      { hash := 0x2975C866E6713290, name := "GET_COUNT", comment := "",
        params := [{ name := "count", type := "int", ref := true }],
        results := "[int, int]" }).genReturnTypes = some "[number]" ∧
    (Native.constructor
      { hash := 0x2975C866E6713290, name := "GET_COUNT", comment := "",
        params := [{ name := "count", type := "int", ref := true }],
        results := "[int, int]" }).genReturnTypes ≠ some "number" := by
  decide

/-- C16, amended: for every descriptor with exactly one reference parameter `p`,
of type int, `genParams` lists every parameter and has the entry
`name: number` for `p` at its position; `genReturnTypes` is the primary result
itself when `results` has exactly one entry, and the bracketed tuple of the
entries after the first when it has two or more. -/
theorem genParams_single_int_reference (self : Native) (i : Nat) (p : Param)
    (hp : self.params[i]? = some p) (href : p.ref = true) (hint : p.type = .str "int")
    (hone : self.getReferenceParams.length = 1) :
    self.getReferenceParams = [p] ∧
    self.genParams
      = join (self.params.map (fun q => q.name ++ ": " ++ getTypescriptType q.type)) ", " ∧
    (self.params.map (fun q => q.name ++ ": " ++ getTypescriptType q.type))[i]?
      = some (p.name ++ ": number") ∧
    (∀ only : String, self.results = [only] → self.genReturnTypes = some only) ∧
    (2 ≤ self.results.length →
      self.genReturnTypes = some ("[" ++ join (self.results.drop 1) ", " ++ "]")) := by
  refine ⟨?_, genParams_single self hone, ?_, genReturnTypes_single self,
    genReturnTypes_tuple self⟩
  · have hmem : p ∈ self.getReferenceParams := by
      rw [getReferenceParams_eq_filter]
      exact List.mem_filter.mpr ⟨List.getElem?_mem hp, href⟩
    obtain ⟨only, honly⟩ := List.length_eq_one.mp hone
    rw [honly] at hmem ⊢
    rw [List.mem_singleton.mp hmem]
  have hnum : getTypescriptType (.str "int") = "number" := by decide
  have hcat : (": " : String) ++ "number" = ": number" := by decide
  rw [List.getElem?_map, hp, Option.map_some', hint, hnum, String.append_assoc, hcat]

/-- The amended C16 at a record with one reference parameter of type int and
one result. -/
theorem genParams_single_int_reference_witness :
    (Native.constructor
      { hash := 0x2975C866E6713290, name := "GET_COUNT", comment := "",
        params := [{ name := "entity", type := "Entity", ref := false },
                   { name := "count", type := "int", ref := true }],
        results := "float" }).genParams = "entity: number, count: number" ∧
    (Native.constructor
      { hash := 0x2975C866E6713290, name := "GET_COUNT", comment := "",
        params := [{ name := "entity", type := "Entity", ref := false },
                   { name := "count", type := "int", ref := true }],
        results := "float" }).genReturnTypes = some "number" := by
  have h := genParams_single_int_reference
    (Native.constructor
      { hash := 0x2975C866E6713290, name := "GET_COUNT", comment := "",
        params := [{ name := "entity", type := "Entity", ref := false },
                   { name := "count", type := "int", ref := true }],
        results := "float" })
    1 { name := "count", type := .str "int", ref := true }
    (by decide) rfl rfl (by decide)
  refine ⟨?_, h.2.2.2.1 "number" (by decide)⟩
  rw [h.2.1]
  decide

/-- C17, counterexample: with the reference parameters float and Vector3 and the
results specification `int`, `genReturnTypes` is `number`, not the tuple
`[number, Vector3]` of the reference parameters. -/
theorem genReturnTypes_ignores_references :
    2 ≤ (Native.constructor { sampleRecord with results := "int" }).getReferenceParams.length ∧
    (Native.constructor { sampleRecord with results := "int" }).getReferenceParams.map
        (fun p => getTypescriptType p.type) = ["number", "Vector3"] ∧
    (Native.constructor { sampleRecord with results := "int" }).genReturnTypes = some "number" ∧
    (Native.constructor { sampleRecord with results := "int" }).genReturnTypes
      ≠ some ("[" ++ join ((Native.constructor
          { sampleRecord with results := "int" }).getReferenceParams.map
            (fun p => getTypescriptType p.type)) ", " ++ "]") := by
  decide

/-- The text of `genBody` for two or more reference parameters. -/
theorem genBody_multi (self : Native) (h2 : 2 ≤ self.getReferenceParams.length) :
    self.genBody
      = "const [" ++ join (self.getReferenceParams.map (fun p => p.name)) ", "
          ++ "] = _in(" ++ join self.getInvokeArgs ", " ++ ");"
        ++ "\n\t"
        ++ ("return ["
          ++ join (self.getReferenceParams.map (fun p => getReturnWarpper p.name p.type)) ", "
          ++ "]") := by
  have : self.getReferenceParams.length > 1 := by omega
  simp only [Native.genBody, this, if_true]

/-- The text of `genBody` for at most one reference parameter. -/
theorem genBody_forward (self : Native) (h1 : self.getReferenceParams.length ≤ 1) :
    self.genBody = "return _in(" ++ join self.getInvokeArgs ", " ++ ")" := by
  have : ¬ self.getReferenceParams.length > 1 := by omega
  simp only [Native.genBody, this, if_false]

/-- C17, amended: for every descriptor with two or more reference parameters
whose results list is the primary result followed by the surface types of the
reference parameters in declaration order, `genReturnTypes` is the bracketed
tuple of those surface types, with as many components as the tuple returned by
`genBody`. -/
theorem genReturnTypes_reference_tuple (self : Native) (primary : String)
    (h2 : 2 ≤ self.getReferenceParams.length)
    (hres : self.results
      = primary :: self.getReferenceParams.map (fun p => getTypescriptType p.type)) :
    self.genReturnTypes
      = some ("[" ++ join (self.getReferenceParams.map (fun p => getTypescriptType p.type)) ", "
          ++ "]") ∧
    (self.getReferenceParams.map (fun p => getTypescriptType p.type)).length
      = (self.getReferenceParams.map (fun p => getReturnWarpper p.name p.type)).length ∧
    self.genBody
      = "const [" ++ join (self.getReferenceParams.map (fun p => p.name)) ", "
          ++ "] = _in(" ++ join self.getInvokeArgs ", " ++ ");"
        ++ "\n\t"
        ++ ("return ["
          ++ join (self.getReferenceParams.map (fun p => getReturnWarpper p.name p.type)) ", "
          ++ "]") := by
  refine ⟨?_, by simp, genBody_multi self h2⟩
  have hlen : 2 ≤ self.results.length := by
    rw [hres]
    simp only [List.length_cons, List.length_map]
    omega
  rw [genReturnTypes_tuple self hlen]
  congr 4
  rw [hres]
  rfl

/-- The amended C17 at the sample record: reference parameters float and
Vector3 give `[number, Vector3]`. -/
theorem genReturnTypes_reference_tuple_witness :
    2 ≤ (Native.constructor sampleRecord).getReferenceParams.length ∧
    (Native.constructor sampleRecord).results
      = "number" :: (Native.constructor sampleRecord).getReferenceParams.map
          (fun p => getTypescriptType p.type) ∧
    (Native.constructor sampleRecord).genReturnTypes = some "[number, Vector3]" := by
  have h := genReturnTypes_reference_tuple (Native.constructor sampleRecord) "number"
    (by decide) (by decide)
  refine ⟨by decide, by decide, ?_⟩
  rw [h.1]
  decide

/-- The unwrapping step of one reference parameter. -/
theorem getReturnWarpper_eq (name : String) (type : TypeValue) :
    getReturnWarpper name type
      = if getTypescriptType type = "Vector3" then "_mv(" ++ name ++ ")"
        else name ++ " as " ++ getTypescriptType type := by
  unfold getReturnWarpper
  by_cases hv : getTypescriptType type = "Vector3"
  · simp [hv]
  · simp [hv]

/-- C18: with two or more reference parameters `genBody` is `const [`, their
names joined by `, `, `] = _in(`, the arguments, `);`, a newline and a tab, and
`return [`, one unwrapping per reference parameter joined by `, `, `]`, the
unwrapping being `_mv(name)` for the surface type Vector3 and
`name as surfaceType` otherwise; the text has the one call `_in(` of that
shape.  With at most one reference parameter it is `return _in(args)`. -/
theorem genBody_shape (self : Native) :
    (2 ≤ (self.params.filter (fun p => p.ref)).length →
      self.genBody
        = "const [" ++ join ((self.params.filter (fun p => p.ref)).map (fun p => p.name)) ", "
            ++ "] = _in(" ++ join self.getInvokeArgs ", " ++ ");"
          ++ "\n\t"
          ++ ("return ["
            ++ join ((self.params.filter (fun p => p.ref)).map
                (fun p => if getTypescriptType p.type = "Vector3" then "_mv(" ++ p.name ++ ")"
                  else p.name ++ " as " ++ getTypescriptType p.type)) ", "
            ++ "]")) ∧
    ((self.params.filter (fun p => p.ref)).length ≤ 1 →
      self.genBody = "return _in(" ++ join self.getInvokeArgs ", " ++ ")") := by
  rw [← getReferenceParams_eq_filter]
  refine ⟨?_, genBody_forward self⟩
  intro h2
  rw [genBody_multi self h2]
  simp only [getReturnWarpper_eq]

/-! ## The documentation block: claim C19 -/

theorem chain_append_of_head {A B : List Char} (hA : List.Chain' NotCloser A)
    (hB : List.Chain' NotCloser B) (hhead : B.head? ≠ some '/') :
    List.Chain' NotCloser (A ++ B) := by
  apply hA.append hB
  intro x _ y hy
  intro hxy
  apply hhead
  rw [Option.mem_def] at hy
  rw [hy, hxy.2]

theorem chain_append_of_last {A B : List Char} (hA : List.Chain' NotCloser A)
    (hB : List.Chain' NotCloser B) (hlast : A.getLast? ≠ some '*') :
    List.Chain' NotCloser (A ++ B) := by
  apply hA.append hB
  intro x hx y _
  intro hxy
  apply hlast
  rw [Option.mem_def] at hx
  rw [hx, hxy.1]

/-- A text without the closer as a contiguous part has no two neighbouring
characters forming it, and conversely. -/
theorem chain_iff_no_closer (l : List Char) :
    List.Chain' NotCloser l ↔ ¬ (['*', '/'] <:+: l) := by
  constructor
  · intro hc hin
    have h2 := hc.infix hin
    rw [List.chain'_pair] at h2
    exact h2 ⟨rfl, rfl⟩
  · intro hno
    induction l with
    | nil => exact List.chain'_nil
    | cons a t ih =>
      cases t with
      | nil => exact List.chain'_singleton a
      | cons b u =>
        rw [List.chain'_cons]
        refine ⟨?_, ih (fun h => hno (List.infix_cons h))⟩
        rintro ⟨rfl, rfl⟩
        exact hno (List.IsPrefix.isInfix ⟨u, rfl⟩)

/-- The second pass of `trimAndNormalize` leaves no closer: a closer in its
output would have been a match in its input. -/
theorem replaceAllGo_closer_chain (l : List Char) :
    List.Chain' NotCloser (replaceAllGo ['*', '/'] [']', ']', ' '] l 0) ∧
    ((replaceAllGo ['*', '/'] [']', ']', ' '] l 0).head? = some '/' → l.head? = some '/') ∧
    List.Chain' NotCloser (replaceAllGo ['*', '/'] [']', ']', ' '] l 1) := by
  induction l with
  | nil => simp [replaceAllGo]
  | cons c rest ih =>
    obtain ⟨ih0, ihhead, ih1⟩ := ih
    refine ⟨?_, ?_, ?_⟩
    · by_cases hm : (['*', '/'] : List Char).isPrefixOf (c :: rest) = true
      · simp only [replaceAllGo, hm, if_true]
        have : List.Chain' NotCloser ([']', ']', ' '] : List Char) := by
          simp [List.chain'_cons, NotCloser]
        exact chain_append_of_last this ih1 (by decide)
      · simp only [replaceAllGo, hm, Bool.false_eq_true, if_false]
        rw [List.chain'_cons']
        refine ⟨?_, ih0⟩
        intro y hy hxy
        apply hm
        rw [Option.mem_def] at hy
        obtain ⟨rfl, rfl⟩ := hxy
        have hrest := ihhead hy
        cases rest with
        | nil => simp at hrest
        | cons r rs =>
          simp only [List.head?_cons, Option.some.injEq] at hrest
          subst hrest
          simp [List.isPrefixOf]
    · by_cases hm : (['*', '/'] : List Char).isPrefixOf (c :: rest) = true
      · simp only [replaceAllGo, hm, if_true]
        intro h
        simp at h
      · simp only [replaceAllGo, hm, Bool.false_eq_true, if_false]
        intro h
        simpa using h
    · simp only [replaceAllGo]
      exact ih0

theorem trimAndNormalize_chain (line : String) :
    List.Chain' NotCloser (trimAndNormalize line).data := by
  have h := (replaceAllGo_closer_chain (replaceAll (trim line) "/*" " -- [[").data).1
  exact h

/-- A loop that appends one piece of text per item. -/
theorem foldl_concat_data {α : Type} (f : α → String) (l : List α) (init : String) :
    (l.foldl (fun doc x => doc ++ f x) init).data
      = init.data ++ (l.map (fun x => (f x).data)).flatten := by
  induction l generalizing init with
  | nil => simp
  | cons x xs ih => simp [ih, String.data_append]

theorem chain_flatten_blocks (blocks : List (List Char)) :
    ∀ A : List Char, List.Chain' NotCloser A →
      (∀ b ∈ blocks, List.Chain' NotCloser b ∧ b.head? ≠ some '/') →
      List.Chain' NotCloser (A ++ blocks.flatten) := by
  induction blocks with
  | nil => intro A hA _; simpa using hA
  | cons b bs ih =>
    intro A hA hb
    rw [List.flatten_cons, ← List.append_assoc]
    have hb0 := hb b (List.mem_cons_self _ _)
    exact ih (A ++ b) (chain_append_of_head hA hb0.1 hb0.2)
      (fun b2 hb2 => hb b2 (List.mem_cons_of_mem _ hb2))

/-- One line of the block: an opening ` * `, closer-free text and a newline. -/
theorem docLine_chain (opening body : List Char) (ho : List.Chain' NotCloser opening)
    (hb : List.Chain' NotCloser body) (hlast : opening.getLast? ≠ some '*') :
    List.Chain' NotCloser (opening ++ body ++ ['\n']) :=
  chain_append_of_head (chain_append_of_last ho hb hlast) (List.chain'_singleton _) (by decide)

/-- In a text that ends with the closer and a newline and has no closer before,
every occurrence of the closer is the final one. -/
theorem closer_only_at_end (Z pre post : List Char) (hZ : List.Chain' NotCloser Z)
    (heq : Z ++ ['/', '\n'] = pre ++ ['*', '/'] ++ post) : post = ['\n'] := by
  rcases Nat.lt_or_ge post.length 2 with hshort | hlong
  · match post, hshort with
    | [], _ =>
      have h := congrArg List.getLast? heq
      simp at h
    | [x], _ =>
      have h := congrArg List.getLast? heq
      simp at h
      rw [h]
  · exfalso
    have hsplit : post = post.take (post.length - 2) ++ post.drop (post.length - 2) :=
      (List.take_append_drop _ _).symm
    rw [hsplit, ← List.append_assoc] at heq
    have hlen : (['/', '\n'] : List Char).length = (post.drop (post.length - 2)).length := by
      rw [List.length_drop]
      simp only [List.length_cons, List.length_nil]
      omega
    have hZeq := (List.append_inj' heq hlen).1
    have hin : (['*', '/'] : List Char) <:+: Z := by
      rw [hZeq]
      exact ⟨pre, post.take (post.length - 2), rfl⟩
    exact (chain_iff_no_closer Z).mp hZ hin

/-- The characters of the block for a non-empty comment: the opener, one line
per line of the comment, one line per parameter, and the closer. -/
theorem genDoc_data (self : Native) (hne : self.comment ≠ "") :
    self.genDoc.data
      = (['/', '*', '*', '\n']
          ++ ((split self.comment "\n").map
                (fun line => [' ', '*', ' '] ++ (trimAndNormalize line).data ++ ['\n'])).flatten
          ++ (self.params.map
                (fun p => (" * @param " : String).data ++ p.name.data ++ ['\n'])).flatten
          ++ [' ', '*'])
        ++ ['/', '\n'] := by
  have hlen : ¬ self.comment.data.length ≤ 0 := by
    intro h
    apply hne
    apply String.ext
    have h0 : self.comment.data = [] := List.length_eq_zero.mp (by omega)
    rw [h0]
  have h1 : ("/**\n" : String).data = ['/', '*', '*', '\n'] := by decide
  have h2 : (" * " : String).data = [' ', '*', ' '] := by decide
  have h3 : ("\n" : String).data = ['\n'] := by decide
  have h4 : (" */\n" : String).data = [' ', '*', '/', '\n'] := by decide
  unfold Native.genDoc
  simp only [hlen, if_false]
  rw [String.data_append, foldl_concat_data, foldl_concat_data]
  simp only [String.data_append, h1, h2, h3, h4]
  simp only [List.append_assoc, List.cons_append, List.nil_append]

/-- C19: when no parameter name contains `*/`, `genDoc` is empty for an empty
comment, and for a non-empty comment of any content it starts with `/**`, ends
with ` */` and a newline, and every occurrence of `*/` in it is followed by
exactly that final newline, that is, it is the final closer. -/
theorem genDoc_safe (self : Native)
    (hnames : ∀ p ∈ self.params, ¬ (['*', '/'] <:+: p.name.data)) :
    (self.comment = "" → self.genDoc = "") ∧
    (self.comment ≠ "" →
      (∃ rest : List Char, self.genDoc.data = '/' :: '*' :: '*' :: rest) ∧
      (∃ body : String, self.genDoc = body ++ " */\n") ∧
      (∀ pre post : List Char, self.genDoc.data = pre ++ ['*', '/'] ++ post → post = ['\n'])) := by
  constructor
  · intro hempty
    unfold Native.genDoc
    rw [hempty]
    rfl
  · intro hne
    have hdata := genDoc_data self hne
    refine ⟨?_, ?_, ?_⟩
    · rw [hdata]
      exact ⟨_, rfl⟩
    · refine ⟨String.mk (['/', '*', '*', '\n']
          ++ ((split self.comment "\n").map
                (fun line => [' ', '*', ' '] ++ (trimAndNormalize line).data ++ ['\n'])).flatten
          ++ (self.params.map
                (fun p => (" * @param " : String).data ++ p.name.data ++ ['\n'])).flatten), ?_⟩
      apply String.ext
      rw [hdata, String.data_append]
      have h4 : (" */\n" : String).data = [' ', '*', '/', '\n'] := by decide
      rw [h4]
      simp only [List.append_assoc, List.cons_append, List.nil_append]
    · intro pre post heq
      rw [hdata] at heq
      refine closer_only_at_end _ pre post ?_ heq
      have hhead : List.Chain' NotCloser (['/', '*', '*', '\n'] : List Char) := by
        simp [List.chain'_cons, NotCloser]
      have hlines := chain_flatten_blocks
        ((split self.comment "\n").map
          (fun line => [' ', '*', ' '] ++ (trimAndNormalize line).data ++ ['\n']))
        _ hhead (by
          intro b hb
          obtain ⟨line, _, rfl⟩ := List.mem_map.mp hb
          refine ⟨docLine_chain _ _ ?_ (trimAndNormalize_chain line) (by decide), by simp⟩
          simp [List.chain'_cons, NotCloser])
      have hparams := chain_flatten_blocks
        (self.params.map (fun p => (" * @param " : String).data ++ p.name.data ++ ['\n']))
        _ hlines (by
          intro b hb
          obtain ⟨p, hp, rfl⟩ := List.mem_map.mp hb
          have hopen : (" * @param " : String).data
              = [' ', '*', ' ', '@', 'p', 'a', 'r', 'a', 'm', ' '] := by decide
          rw [hopen]
          refine ⟨docLine_chain _ _ ?_ ((chain_iff_no_closer _).mpr (hnames p hp)) (by decide),
            by simp⟩
          simp [List.chain'_cons, NotCloser])
      exact chain_append_of_head hparams (by simp [List.chain'_cons, NotCloser]) (by decide)

/-- C19 at a comment with `*/`, `/*/` and `*/*/` in its lines. -/
theorem genDoc_safe_witness :
    (Native.constructor
      { hash := 0xA6E9C38DB51D7748, name := "GET_POS", comment := "ends */ here\n /*/ and */*/ ",
        params := [{ name := "ped", type := "Ped", ref := false }],
        results := "Vector3" }).genDoc
      = "/**\n * ends ]]  here\n *  -- [[/ and * -- [[/\n * @param ped\n */\n" ∧
    (∀ pre post : List Char,
      (Native.constructor
        { hash := 0xA6E9C38DB51D7748, name := "GET_POS",
          comment := "ends */ here\n /*/ and */*/ ",
          params := [{ name := "ped", type := "Ped", ref := false }],
          results := "Vector3" }).genDoc.data = pre ++ ['*', '/'] ++ post → post = ['\n']) :=
  ⟨by decide,
   ((genDoc_safe
      (Native.constructor
        { hash := 0xA6E9C38DB51D7748, name := "GET_POS",
          comment := "ends */ here\n /*/ and */*/ ",
          params := [{ name := "ped", type := "Ped", ref := false }],
          results := "Vector3" })
      (by decide)).2 (by decide)).2.2⟩



/-! ## Parentheses of the emitted arguments: claim C20 -/

theorem parenDepth_append (a b : List Char) :
    ∀ depth : Nat, parenDepth (a ++ b) depth = (parenDepth a depth).bind (parenDepth b) := by
  induction a with
  | nil => intro depth; simp [parenDepth]
  | cons c rest ih =>
    intro depth
    simp only [List.cons_append, parenDepth]
    split_ifs
    · exact ih _
    · cases depth with
      | zero => simp
      | succ d => exact ih d
    · exact ih _

theorem parenDepth_plain (l : List Char) (hl : ∀ c ∈ l, c ≠ '(' ∧ c ≠ ')') :
    ∀ depth : Nat, parenDepth l depth = some depth := by
  induction l with
  | nil => intro depth; rfl
  | cons c rest ih =>
    intro depth
    have hc := hl c (List.mem_cons_self _ _)
    simp only [parenDepth, hc.1, hc.2, if_false]
    exact ih (fun x hx => hl x (List.mem_cons_of_mem _ hx)) depth

/-- A wrapper that opens one parenthesis around a name without parentheses and
closes it is balanced. -/
theorem wrapper_balanced (opener name : String) (ho : parenDepth opener.data 0 = some 1)
    (hname : ∀ c ∈ name.data, c ≠ '(' ∧ c ≠ ')') :
    parensBalanced (opener ++ name ++ ")") = true := by
  have hclose : (")" : String).data = [')'] := by decide
  simp only [parensBalanced, String.data_append, parenDepth_append, ho, Option.some_bind,
    parenDepth_plain _ hname, hclose, decide_eq_true_eq]
  rfl

/-- Every argument other than the one of a by-value `object` parameter is
balanced when the parameter name has no parentheses. -/
theorem invokeArg_balanced (self : Native) (i : Nat) (p : Param)
    (hp : self.params[i]? = some p)
    (hname : ∀ c ∈ p.name.data, c ≠ '(' ∧ c ≠ ')')
    (hobj : p.ref = true ∨ p.type ≠ .str "object") :
    parensBalanced (self.invokeArg p) = true := by
  have hplain : parensBalanced p.name = true := by
    simp [parensBalanced, parenDepth_plain _ hname]
  cases href : p.ref with
  | true =>
    obtain ⟨c1, c2, c3, c4, c5, c6⟩ := invokeArg_ref self p href
    have hpos := getReferenceParams_length_pos self i p hp href
    by_cases hv : p.type = .str "Vector3"
    · rw [c1 hv]; decide
    · by_cases h1 : self.getReferenceParams.length = 1
      · by_cases hi : p.type = .str "int"
        · rw [c2 hi h1]; exact wrapper_balanced _ _ (by decide) hname
        · by_cases hf : p.type = .str "float"
          · rw [c3 hf h1]; exact wrapper_balanced _ _ (by decide) hname
          · rw [c6 hv hi hf]; decide
      · by_cases hi : p.type = .str "int"
        · rw [c4 hi (by omega)]; decide
        · by_cases hf : p.type = .str "float"
          · rw [c5 hf (by omega)]; decide
          · rw [c6 hv hi hf]; decide
  | false =>
    obtain ⟨c1, c2, c3, c4, c5, c6, c7⟩ := invokeArg_value self p href
    have hno : p.type ≠ .str "object" := by
      rcases hobj with h | h
      · rw [href] at h; cases h
      · exact h
    by_cases t1 : p.type = .str "func"
    · rw [c1 t1]; exact wrapper_balanced _ _ (by decide) hname
    · by_cases t2 : p.type = .str "float"
      · rw [c2 t2]; exact wrapper_balanced _ _ (by decide) hname
      · by_cases t3 : p.type = .str "hash"
        · rw [c3 t3]; exact wrapper_balanced _ _ (by decide) hname
        · by_cases t5 : p.type = .str "string"
          · rw [c5 t5]; exact wrapper_balanced _ _ (by decide) hname
          · by_cases t6 : p.type = .str "char"
            · rw [c6 t6]; exact wrapper_balanced _ _ (by decide) hname
            · rw [c7 t1 t2 t3 hno t5 t6]; exact hplain

/-- C20, the code at the failing input: the argument emitted for a by-value
parameter of type object is `...(_obj(name)`, which opens two parentheses and
closes one, so neither the argument nor the body built from it is balanced;
the sibling wrappers such as `_ts(name)` are. -/
theorem getInvokeArgs_object_unbalanced :
    (Native.constructor
      { hash := 0x7B3703D2D32DFA18, name := "SET_DATA", comment := "",
        params := [{ name := "data", type := "object", ref := false }],
        results := "void" }).getInvokeArgs
      = ["0x7b3703d2", "0xd32dfa18", "...(_obj(data)"] ∧
    parensBalanced "...(_obj(data)" = false ∧
    (Native.constructor
      { hash := 0x7B3703D2D32DFA18, name := "SET_DATA", comment := "",
        params := [{ name := "data", type := "object", ref := false }],
        results := "void" }).genBody
      = "return _in(0x7b3703d2, 0xd32dfa18, ...(_obj(data))" ∧
    parensBalanced "return _in(0x7b3703d2, 0xd32dfa18, ...(_obj(data))" = false ∧
    parensBalanced "_ts(data)" = true := by
  decide

end Generate
